import Mathlib

/-!
# node-red-bishop-kafka: consumer, producer and broker nodes

A shallow embedding of `src/consumer.js`, `src/producer.js` and `src/broker.js`.

* Values that reach the control handlers are modelled by `JsVal` (`undefined`, `null`,
  booleans, numbers, strings).  Numbers are IEEE doubles in the source; the embedding covers
  NaN, the two infinities and the integer-valued doubles, and every arithmetic result is rounded
  to the nearest double (`toDouble`), so that integer arithmetic is exact up to `2^53` and
  rounds above.
* A handler is a function from its inputs and the node state to the new state and the list of
  its effects on the node and on the broker client, in the order of the source.
* The functions of the platform (`JSON.parse`, `JSON.stringify`, `Buffer.from`, the `toString`
  of buffers and objects) are parameters, gathered in `JsLib`.
* The broker client handle (`node.consumer`) is taken to exist when a control message arrives:
  the constructor assigns it before the first suspension of `init`.
-/

namespace BishopKafka

/-! ## JavaScript numbers and primitive values -/

/-- A JavaScript number: NaN, plus or minus Infinity, or an integer-valued double. -/
inductive JsNum
  | nan
  | inf (neg : Bool)
  | fin (i : Int)
  deriving DecidableEq, Repr

/-- A primitive JavaScript value. -/
inductive JsVal
  | undefined
  | null
  | bool (b : Bool)
  | num (n : JsNum)
  | str (s : String)
  deriving DecidableEq, Repr

/-- The number of binary digits of `n` (fuel bounds the length). -/
def bitLengthAux : Nat → Nat → Nat
  | 0, _ => 0
  | fuel + 1, n => if n = 0 then 0 else bitLengthAux fuel (n / 2) + 1

/-- The number of binary digits of `n`. -/
def bitLength (n : Nat) : Nat := bitLengthAux n n

/-- Round a natural number to the nearest value with a 53-bit significand, ties to even. -/
def roundNat (n : Nat) : Nat :=
  if n < 2 ^ 53 then n
  else
    let e := bitLength n - 53
    let q := n / 2 ^ e
    let r := n % 2 ^ e
    let half := 2 ^ (e - 1)
    let q1 := if half < r ∨ (r = half ∧ q % 2 = 1) then q + 1 else q
    q1 * 2 ^ e

/-- The double nearest to a mathematical integer (overflowing to an infinity). -/
def toDouble (i : Int) : JsNum :=
  let m := roundNat i.natAbs
  if 1024 < bitLength m then .inf (decide (i < 0))
  else .fin (if i < 0 then -(m : Int) else (m : Int))

/-- The decimal digits of a natural number, most significant first. -/
def decimalChars (n : Nat) : List Char := Nat.toDigits 10 n

/-- Drop the trailing zero digits of a digit list. -/
def stripTrailingZeros (cs : List Char) : List Char :=
  (cs.reverse.dropWhile (fun c => c == '0')).reverse

/-- Search, from the coarsest power of ten down, for the multiple of `10^j` that rounds to `x`
and is nearest to it: the value whose digits `Number::toString` prints. -/
def shortestValue : Nat → Nat → Nat
  | 0, x => x
  | j + 1, x =>
    let p := 10 ^ (j + 1)
    let lo := x / p * p
    let hi := lo + p
    let okLo := decide (0 < lo ∧ roundNat lo = x)
    let okHi := decide (roundNat hi = x)
    if okLo ∧ okHi then (if x - lo ≤ hi - x then lo else hi)
    else if okLo then lo
    else if okHi then hi
    else shortestValue j x

/-- The digits of `Number::toString` for a positive integer-valued double `m`. -/
def natToJsChars (m : Nat) : List Char :=
  if m ≤ 2 ^ 53 then decimalChars m
  else
    let v := shortestValue (decimalChars m).length m
    let ds := decimalChars v
    if ds.length ≤ 21 then ds
    else
      match stripTrailingZeros ds with
      | [] => ds
      | d :: rest =>
        (d :: (if rest.isEmpty then [] else '.' :: rest))
          ++ 'e' :: '+' :: decimalChars (ds.length - 1)

/-- The abstract operation `Number::toString` (radix 10). -/
def numberToString : JsNum → String
  | .nan => "NaN"
  | .inf false => "Infinity"
  | .inf true => "-Infinity"
  | .fin i =>
    if i < 0 then String.mk ('-' :: natToJsChars i.natAbs) else String.mk (natToJsChars i.natAbs)

/-- The abstract operation `ToString` on primitives. -/
def jsToString : JsVal → String
  | .undefined => "undefined"
  | .null => "null"
  | .bool true => "true"
  | .bool false => "false"
  | .num n => numberToString n
  | .str s => s

/-- The method call `v.toString()`: a TypeError (`none`) on `null` and `undefined`. -/
def methodToString : JsVal → Option String
  | .undefined => none
  | .null => none
  | v => some (jsToString v)

/-- The abstract operation `ToBoolean`. -/
def truthy : JsVal → Bool
  | .undefined => false
  | .null => false
  | .bool b => b
  | .num .nan => false
  | .num (.inf _) => true
  | .num (.fin i) => decide (i ≠ 0)
  | .str s => decide (s ≠ "")

/-- The operator `a || b`. -/
def jsOr (a b : JsVal) : JsVal := if truthy a then a else b

/-- The operator `a === b` (NaN differs from itself). -/
def strictEq (a b : JsVal) : Bool :=
  match a, b with
  | .num .nan, _ => false
  | _, .num .nan => false
  | a, b => decide (a = b)

/-- The relation `a > b` on numbers (false when either side is NaN). -/
def numGt : JsNum → JsNum → Bool
  | .nan, _ => false
  | _, .nan => false
  | .inf true, _ => false
  | .inf false, .inf false => false
  | .inf false, _ => true
  | .fin _, .inf neg => neg
  | .fin a, .fin b => decide (b < a)

/-- The operation `n + 1` on numbers. -/
def numSucc : JsNum → JsNum
  | .nan => .nan
  | .inf neg => .inf neg
  | .fin i => toDouble (i + 1)

/-- White space and line terminators skipped by `parseInt` and trimmed by `Number`. -/
def isStrWhiteSpace (c : Char) : Bool :=
  let n := c.toNat
  n == 0x9 || n == 0xA || n == 0xB || n == 0xC || n == 0xD || n == 0x20 || n == 0xA0
    || n == 0x1680 || (0x2000 ≤ n && n ≤ 0x200A) || n == 0x2028 || n == 0x2029
    || n == 0x202F || n == 0x205F || n == 0x3000 || n == 0xFEFF

/-- The value of a character as a digit (letters count from ten). -/
def digitValue (c : Char) : Option Nat :=
  let n := c.toNat
  if 48 ≤ n ∧ n ≤ 57 then some (n - 48)
  else if 97 ≤ n ∧ n ≤ 122 then some (n - 87)
  else if 65 ≤ n ∧ n ≤ 90 then some (n - 55)
  else none

/-- Is `c` a digit of the given radix? -/
def isRadixDigit (radix : Nat) (c : Char) : Bool :=
  match digitValue c with
  | some d => decide (d < radix)
  | none => false

/-- The value of a digit list in the given radix, continuing from `acc`. -/
def digitsValue (radix : Nat) : List Char → Nat → Nat
  | [], acc => acc
  | c :: cs, acc => digitsValue radix cs (acc * radix + (digitValue c).getD 0)

/-- Split an optional leading sign off a character list. -/
def splitSign (cs : List Char) : Bool × List Char :=
  match cs with
  | [] => (false, [])
  | c :: rest =>
    if c = '-' then (true, rest) else if c = '+' then (false, rest) else (false, c :: rest)

/-- Split an optional hexadecimal marker off a character list, giving the radix. -/
def splitRadix (cs : List Char) : Nat × List Char :=
  match cs with
  | c0 :: c1 :: rest =>
    if c0 = '0' ∧ (c1 = 'x' ∨ c1 = 'X') then (16, rest) else (10, c0 :: c1 :: rest)
  | rest => (10, rest)

/-- The global function `parseInt(string)` without a radix argument. -/
def parseIntChars (cs : List Char) : JsNum :=
  let signed := splitSign (cs.dropWhile isStrWhiteSpace)
  let based := splitRadix signed.2
  let ds := based.2.takeWhile (isRadixDigit based.1)
  if ds.isEmpty then .nan
  else
    let v : Int := (digitsValue based.1 ds 0 : Nat)
    toDouble (if signed.1 then -v else v)

/-- The global function `parseInt(v)`: the argument is first converted with `ToString`. -/
def parseInt (v : JsVal) : JsNum := parseIntChars (jsToString v).toList

/-- Is the list a non-empty run of digits of the given radix? -/
def allDigits (radix : Nat) (cs : List Char) : Bool :=
  !cs.isEmpty && cs.all (isRadixDigit radix)

/-- Does the list match an optional `ExponentPart`? -/
def isOptExponent : List Char → Bool
  | [] => true
  | c :: cs =>
    (c == 'e' || c == 'E') &&
      (match cs with
       | '+' :: ds => allDigits 10 ds
       | '-' :: ds => allDigits 10 ds
       | ds => allDigits 10 ds)

/-- Does the list match `StrUnsignedDecimalLiteral`? -/
def isUnsignedDecimal (cs : List Char) : Bool :=
  if cs = "Infinity".toList then true
  else
    let intPart := cs.takeWhile (isRadixDigit 10)
    let rest := cs.dropWhile (isRadixDigit 10)
    match rest with
    | '.' :: more =>
      let fracPart := more.takeWhile (isRadixDigit 10)
      let tail := more.dropWhile (isRadixDigit 10)
      (!intPart.isEmpty || !fracPart.isEmpty) && isOptExponent tail
    | _ => !intPart.isEmpty && isOptExponent rest

/-- Does the list match `StrNumericLiteral`? -/
def isStrNumericLiteral : List Char → Bool
  | '0' :: 'x' :: ds => allDigits 16 ds
  | '0' :: 'X' :: ds => allDigits 16 ds
  | '0' :: 'o' :: ds => allDigits 8 ds
  | '0' :: 'O' :: ds => allDigits 8 ds
  | '0' :: 'b' :: ds => allDigits 2 ds
  | '0' :: 'B' :: ds => allDigits 2 ds
  | '+' :: cs => isUnsignedDecimal cs
  | '-' :: cs => isUnsignedDecimal cs
  | cs => isUnsignedDecimal cs

/-- Does `StringToNumber` give a number other than NaN?  The string is trimmed of white
space; the empty string converts to zero. -/
def isNumericString (s : String) : Bool :=
  let cs := ((s.toList.dropWhile isStrWhiteSpace).reverse.dropWhile isStrWhiteSpace).reverse
  cs.isEmpty || isStrNumericLiteral cs

/-- The global function `isNaN(v)`: whether `ToNumber(v)` is NaN. -/
def jsIsNaN : JsVal → Bool
  | .undefined => true
  | .null => false
  | .bool _ => false
  | .num .nan => true
  | .num _ => false
  | .str s => !isNumericString s

/-! ## Consumer node: control messages (`src/consumer.js`) -/

/-- The `payload` of a control message sent to the consumer node. -/
structure ControlPayload where
  event : JsVal
  partition : JsVal
  offset : JsVal
  topic : JsVal
  deriving DecidableEq, Repr

/-- The `LastCommitted` record, also the argument of `commitOffsets`. -/
structure Commit where
  partition : JsVal
  topic : JsVal
  offset : String
  deriving DecidableEq, Repr

/-- What a consumer handler does to the node and to the broker client, in order. -/
inductive Effect
  | error (text : String)
  | warn (text : String)
  | status (fill shape text : String)
  | pause (topic : JsVal)
  | resume (topic : JsVal)
  | seek (topic : JsVal) (partition : JsVal) (offset : String)
  | commitOffsets (c : Commit)
  | done
  | raise (err : String)
  deriving DecidableEq, Repr

/-- The handler `onPause`; `topic` is `subscribeOptions.topic`. -/
def onPause (topic : JsVal) : List Effect :=
  [.pause topic, .status "yellow" "ring" "Paused", .done]

/-- The handler `onResume`. -/
def onResume (topic : JsVal) : List Effect :=
  [.resume topic, .status "green" "ring" "Resumed", .done]

/-- The handler `onSeek`; `topic` is `subscribeOptions.topic`. -/
def onSeek (topic : JsVal) (p : ControlPayload) : List Effect :=
  if p.offset = .null ∨ p.offset = .undefined ∨ jsIsNaN p.offset = true then
    [.error "Seek error: invalid offset", .done]
  else if p.partition = .null ∨ p.partition = .undefined ∨ jsIsNaN p.partition = true then
    [.error "Seek error: invalid partition", .done]
  else
    match methodToString p.offset with
    | none => [.raise "TypeError"]
    | some s => [.seek topic p.partition s, .status "green" "ring" "Seeked", .done]

/-- The guard of `onCommit` that skips a commit behind the last committed offset. -/
def commitBehind (last : Option Commit) (topic partition offset : JsVal) : Bool :=
  match last with
  | none => false
  | some lc =>
    strictEq lc.topic topic && strictEq lc.partition partition
      && numGt (parseInt (.str lc.offset)) (parseInt offset)

/-- The handler `onCommit`: the new `lastCommitted` and the effects.  `subTopic` is
`subscribeOptions.topic`; the text of the warning is not reproduced. -/
def onCommit (subTopic : JsVal) (last : Option Commit) (p : ControlPayload) :
    Option Commit × List Effect :=
  let partition := p.partition
  let offset := p.offset
  let topic := jsOr p.topic subTopic
  if jsIsNaN partition then (last, [.error "Commit error: invalid partition", .done])
  else if !truthy topic then (last, [.error "Commit error: invalid topic", .done])
  else if jsIsNaN offset then (last, [.error "Commit error: invalid offset", .done])
  else if commitBehind last topic partition offset then (last, [.warn "Commit skipped", .done])
  else
    let commit : Commit :=
      { partition := partition, topic := topic,
        offset := numberToString (numSucc (parseInt offset)) }
    (some commit, [.commitOffsets commit, .done])

/-- The `input` handler of the consumer node: dispatch on `msg.payload.event`. -/
def consumerInput (subTopic : JsVal) (last : Option Commit) (p : ControlPayload) :
    Option Commit × List Effect :=
  if strictEq p.event (.str "pause") then (last, onPause subTopic)
  else if strictEq p.event (.str "resume") then (last, onResume subTopic)
  else if strictEq p.event (.str "seek") then (last, onSeek subTopic p)
  else if strictEq p.event (.str "commit") then onCommit subTopic last p
  else (last, [])

/-- Handle a sequence of commit messages in order with `onCommit`, collecting the effects. -/
def runCommits (subTopic : JsVal) : Option Commit → List ControlPayload →
    Option Commit × List Effect
  | last, [] => (last, [])
  | last, p :: ps =>
    let r := onCommit subTopic last p
    let rest := runCommits subTopic r.1 ps
    (rest.1, r.2 ++ rest.2)

/-- The arguments of the `commitOffsets` calls among the effects, in call order. -/
def commitCalls : List Effect → List Commit
  | [] => []
  | .commitOffsets c :: es => c :: commitCalls es
  | _ :: es => commitCalls es

/-- The `seek` calls among the effects. -/
def seekCalls : List Effect → List Effect
  | [] => []
  | .seek t p o :: es => .seek t p o :: seekCalls es
  | _ :: es => seekCalls es

/-- The errors reported with `node.error` among the effects. -/
def errorCalls : List Effect → List String
  | [] => []
  | .error t :: es => t :: errorCalls es
  | _ :: es => errorCalls es

/-- A commit message for a partition and an offset given as numbers, with a topic. -/
def commitMsg (topic : JsVal) (partition offset : Int) : ControlPayload :=
  { event := .str "commit", partition := .num (.fin partition), offset := .num (.fin offset),
    topic := topic }

/-- A value carried by a record or a flow message: a primitive, a `Buffer` (its bytes) or any
other object, of a type `Obj` left open. -/
inductive JsData (Obj : Type)
  | prim (v : JsVal)
  | buffer (bytes : List UInt8)
  | object (o : Obj)
  deriving DecidableEq, Repr

/-- The functions of the platform (Node.js) that the nodes call, taken as given.  An exception
thrown by one of them is an `Except.error`. -/
structure JsLib (Obj : Type) where
  /-- The method `Buffer.prototype.toString()`. -/
  bufferToString : List UInt8 → String
  /-- The function `Buffer.from(string)`. -/
  bufferFrom : String → List UInt8
  /-- The function `JSON.parse(text)`. -/
  jsonParse : String → Except String (JsData Obj)
  /-- The function `JSON.stringify(value)`, whose result is a string or `undefined`. -/
  jsonStringify : JsData Obj → Except String (Option String)
  /-- The method `toString()` of an object that is not a buffer. -/
  objectToString : Obj → Except String String

/-- The test `Buffer.isBuffer(v)`. -/
def JsData.isBuffer {Obj : Type} : JsData Obj → Bool
  | .buffer _ => true
  | _ => false

/-- The abstract operation `ToBoolean` on data values: every object is truthy. -/
def JsData.truthy {Obj : Type} : JsData Obj → Bool
  | .prim v => BishopKafka.truthy v
  | _ => true

/-- The method call `v.toString()` on a data value. -/
def dataToString {Obj : Type} (lib : JsLib Obj) : JsData Obj → Except String String
  | .prim v =>
    match methodToString v with
    | some s => .ok s
    | none => .error "TypeError"
  | .buffer b => .ok (lib.bufferToString b)
  | .object o => lib.objectToString o

/-- The assignment `obj[key] = value` on an object held as its list of entries. -/
def objSet {β : Type} : List (String × β) → String → β → List (String × β)
  | [], k, v => [(k, v)]
  | (k1, v1) :: rest, k, v =>
    if k1 = k then (k, v) :: rest else (k1, v1) :: objSet rest k v

/-! ## Consumer node: inbound records (`src/consumer.js`) -/

/-- What the record handler does to the node, in order.  `send a b` is `node.send([a, b])`;
`raise` is an exception that leaves the handler. -/
inductive DataEffect (Msg : Type)
  | error (text : String)
  | status (fill shape text : String)
  | send (primary : Option Msg) (secondary : Option Msg)
  | raise (err : String)
  deriving DecidableEq, Repr

/-- The consumer function `convertMessage(msg, toType)`: the result and the texts of the errors
reported with `node.error`. -/
def Consumer.convertMessage {Obj : Type} (lib : JsLib Obj) (msg : JsData Obj)
    (toType : JsVal) : JsData Obj × List String :=
  match msg with
  | .buffer b =>
    if strictEq toType (.str "json") then
      match lib.jsonParse (lib.bufferToString b) with
      | .ok v => (v, [])
      | .error _ => (.buffer b, ["Kafka Consumer Error (message conversion)"])
    else if strictEq toType (.str "string") then
      (.prim (.str (lib.bufferToString b)), [])
    else (.buffer b, [])
  | other => (other, [])

/-- The argument of `eachMessage`: `topic`, `partition` and the fields of `message`; absent
headers are `none`. -/
structure Record (Obj : Type) where
  topic : JsVal
  partition : JsVal
  offset : JsVal
  key : JsData Obj
  value : JsData Obj
  headers : Option (List (String × JsData Obj))

/-- The message built by `eachMessage`: `payload.key`, `payload.value`, `payload.headers`
(`none` is `null`) and `bishop.kafka.topic`, `.partition`, `.offset`. -/
structure ConsumerMsg (Obj : Type) where
  key : JsData Obj
  value : JsData Obj
  headers : Option (List (String × String))
  topic : JsVal
  partition : JsVal
  offset : JsVal
  deriving DecidableEq, Repr

/-- The loop `for (const [key, value] of Object.entries(message.headers))` filling
`msg.payload.headers`; it stops at the first `value.toString()` that throws. -/
def fillHeaders {Obj : Type} (lib : JsLib Obj) :
    List (String × JsData Obj) → List (String × String) → Except String (List (String × String))
  | [], acc => .ok acc
  | (k, v) :: rest, acc =>
    match dataToString lib v with
    | .ok s => fillHeaders lib rest (objSet acc k s)
    | .error e => .error e

/-- The initial value of `headers` in `eachMessage`: `null` for absent or empty headers, a fresh
empty object otherwise. -/
def initialHeaders {Obj : Type} (hs : Option (List (String × JsData Obj))) :
    Option (List (String × String)) :=
  match hs with
  | some entries => if entries.length = 0 then none else some []
  | none => none

/-- The body of the `try` block of `eachMessage` up to `node.send`: the message built, or the
exception thrown, with the errors reported on the way. -/
def buildMessage {Obj : Type} (lib : JsLib Obj) (keytype valuetype : JsVal) (r : Record Obj) :
    Except String (ConsumerMsg Obj) × List (DataEffect (ConsumerMsg Obj)) :=
  let headers := initialHeaders r.headers
  let key := Consumer.convertMessage lib r.key keytype
  let value := Consumer.convertMessage lib r.value valuetype
  let filled : Except String (Option (List (String × String))) :=
    match headers with
    | some h0 =>
      match fillHeaders lib (r.headers.getD []) h0 with
      | .ok h => .ok (some h)
      | .error e => .error e
    | none => .ok none
  match filled with
  | .ok h =>
    (.ok { key := key.1, value := value.1, headers := h, topic := r.topic,
           partition := r.partition, offset := r.offset },
     (key.2 ++ value.2).map DataEffect.error)
  | .error e => (.error e, (key.2 ++ value.2).map DataEffect.error)

/-- The handler `runOptions.eachMessage`.  In the `catch` block the call `send(...)` names a
function that no enclosing scope declares (`send` is a parameter of the `input` listener only,
and `msg` is local to the `try` block), so evaluating it throws a ReferenceError out of the
handler. -/
def eachMessage {Obj : Type} (lib : JsLib Obj) (keytype valuetype : JsVal) (r : Record Obj) :
    List (DataEffect (ConsumerMsg Obj)) :=
  match buildMessage lib keytype valuetype r with
  | (.ok msg, logged) =>
    logged ++ [.send (some msg) none, .status "green" "dot" "Message received"]
  | (.error _, logged) =>
    logged ++ [.status "red" "ring" "Error", .raise "ReferenceError: send is not defined"]

/-- The messages passed to `node.send`, as pairs of primary and secondary output. -/
def sentMessages {Msg : Type} : List (DataEffect Msg) → List (Option Msg × Option Msg)
  | [] => []
  | .send a b :: es => (a, b) :: sentMessages es
  | _ :: es => sentMessages es

/-- The exceptions that leave the handler. -/
def raised {Msg : Type} : List (DataEffect Msg) → List String
  | [] => []
  | .raise e :: es => e :: raised es
  | _ :: es => raised es

/-! ## Producer node (`src/producer.js`) -/

/-- The mutable state of the producer node: the flag `ready` and whether `producer` is set. -/
structure ProducerState where
  ready : Bool
  hasProducer : Bool
  deriving DecidableEq, Repr

/-- The callback `onInitError`. -/
def Producer.onInitError (st : ProducerState) : ProducerState := { st with ready := false }

/-- An input message of the producer node; absent headers are `none`. -/
structure ProducerMsg (Obj : Type) where
  payload : JsData Obj
  key : JsData Obj
  topic : JsData Obj
  partition : JsData Obj
  headers : Option (List (String × JsData Obj))
  deriving DecidableEq, Repr

/-- The argument of `producer.send`: the topic and the single message. -/
structure SendRequest (Obj : Type) where
  topic : JsData Obj
  key : JsData Obj
  partition : JsData Obj
  headers : Option (List (String × JsData Obj))
  value : JsData Obj
  deriving DecidableEq, Repr

/-- What the producer's input handler does, in order.  `send a b` is `send([a, b])`, the
secondary output carrying the input message and the error. -/
inductive ProducerEffect (Obj : Type)
  | error (text : String)
  | status (fill shape text : String)
  | brokerSend (req : SendRequest Obj)
  | send (primary : Option (ProducerMsg Obj)) (secondary : Option (ProducerMsg Obj × String))
  | done (err : Option String)
  deriving DecidableEq, Repr

/-- The producer function `convertMessage(msg, toType)`, which may throw. -/
def Producer.convertMessage {Obj : Type} (lib : JsLib Obj) (msg : JsData Obj) (toType : JsVal) :
    Except String (JsData Obj) :=
  if msg.isBuffer then .ok msg
  else if strictEq toType (.str "json") then
    match lib.jsonStringify msg with
    | .ok (some text) => .ok (.buffer (lib.bufferFrom text))
    | .ok none => .error "TypeError"
    | .error e => .error e
  else if strictEq toType (.str "string") then
    match dataToString lib msg with
    | .ok text => .ok (.buffer (lib.bufferFrom text))
    | .error e => .error e
  else .ok msg

/-- The continuation of `producer.send`: `outcome` is `none` when the promise resolves and the
error when it rejects. -/
def onSendSettled {Obj : Type} (msg : ProducerMsg Obj) (outcome : Option String) :
    List (ProducerEffect Obj) :=
  match outcome with
  | none => [.status "green" "dot" "Sent", .send (some msg) none, .done none]
  | some e => [.status "red" "ring" "Error", .send none (some (msg, e)), .done (some e)]

/-- The call `s.replace(c, '')` with a string pattern: only the first occurrence is removed. -/
def removeFirst (c : Char) : List Char → List Char
  | [] => []
  | x :: xs => if x = c then xs else x :: removeFirst c xs

/-- The call `s.split(sep)` with a one-character separator. -/
def splitOnChar (sep : Char) : List Char → List (List Char)
  | [] => [[]]
  | x :: xs =>
    if x = sep then [] :: splitOnChar sep xs
    else
      match splitOnChar sep xs with
      | [] => [[x]]
      | part :: parts => (x :: part) :: parts

/-- The option `brokers` of the broker node: `config.brokers.replace(' ', '').split(',')`. -/
def brokers (s : String) : List String :=
  (splitOnChar ',' (removeFirst ' ' s.toList)).map String.mk

/-- The address list the specification describes: every space removed, then split on commas. -/
def brokersSpec (s : String) : List String :=
  (splitOnChar ',' (s.toList.filter (fun c => c != ' '))).map String.mk

/-! ## A sample platform library, for evaluating the handlers on examples -/

/-- A small instance of the platform library over objects without content: buffers hold
one-byte characters, and the only JSON texts are `null`, `true` and `false`. -/
def sampleLib : JsLib Unit :=
  { bufferToString := fun b => String.mk (b.map (fun x => Char.ofNat x.toNat)),
    bufferFrom := fun s => s.toList.map (fun c => c.toNat.toUInt8),
    jsonParse := fun s =>
      if s = "null" then .ok (.prim .null)
      else if s = "true" then .ok (.prim (.bool true))
      else if s = "false" then .ok (.prim (.bool false))
      else .error "SyntaxError",
    jsonStringify := fun v =>
      match v with
      | .prim .null => .ok (some "null")
      | .prim (.bool true) => .ok (some "true")
      | .prim (.bool false) => .ok (some "false")
      | .prim .undefined => .ok none
      | .prim (.num n) => .ok (some (numberToString n))
      | _ => .error "TypeError",
    objectToString := fun _ => .ok "[object Object]" }

/-- A record with a key, a JSON value and two headers. -/
def sampleRecord : Record Unit :=
  { topic := .str "t", partition := .num (.fin 0), offset := .str "5",
    key := .buffer [107], value := .buffer [110, 117, 108, 108],
    headers := some [("h", .buffer [65]), ("g", .prim (.str "x"))] }


/-! ## Arithmetic in the safe-integer range -/

theorem bitLengthAux_le (fuel : Nat) : ∀ (k n : Nat), n < 2 ^ k → bitLengthAux fuel n ≤ k := by
  induction fuel with
  | zero => intro k n _; simp [bitLengthAux]
  | succ f ih =>
    intro k n h
    unfold bitLengthAux
    by_cases hn : n = 0
    · simp [hn]
    · simp only [hn, if_false]
      cases k with
      | zero => simp at h; exact absurd h hn
      | succ k =>
        have : n / 2 < 2 ^ k := by
          rw [Nat.div_lt_iff_lt_mul (by decide)]
          rw [pow_succ] at h
          exact h
        have := ih k (n / 2) this
        omega

theorem roundNat_of_le (n : Nat) (h : n ≤ 2 ^ 53) : roundNat n = n := by
  rcases Nat.lt_or_ge n (2 ^ 53) with hlt | hge
  · unfold roundNat
    rw [if_pos hlt]
  · have : n = 2 ^ 53 := Nat.le_antisymm h hge
    subst this
    decide

theorem toDouble_natCast (n : Nat) (h : n ≤ 2 ^ 53) : toDouble (n : Int) = .fin (n : Int) := by
  have hb : bitLength n ≤ 54 := bitLengthAux_le n 54 n (by
    calc n ≤ 2 ^ 53 := h
      _ < 2 ^ 54 := by norm_num)
  have hneg : ¬ ((n : Int) < 0) := by omega
  simp only [toDouble, Int.natAbs_ofNat, roundNat_of_le n h, hneg, if_false]
  rw [if_neg (by omega)]

theorem digitChar_facts : ∀ d, d < 10 →
    digitValue (Nat.digitChar d) = some d ∧ isStrWhiteSpace (Nat.digitChar d) = false ∧
    isRadixDigit 10 (Nat.digitChar d) = true ∧
    Nat.digitChar d ≠ '-' ∧ Nat.digitChar d ≠ '+' ∧ Nat.digitChar d ≠ 'x' ∧
    Nat.digitChar d ≠ 'X' := by
  decide

theorem digitsValue_append (r : Nat) (a b : List Char) (v : Nat) :
    digitsValue r (a ++ b) v = digitsValue r b (digitsValue r a v) := by
  induction a generalizing v with
  | nil => rfl
  | cons c cs ih => simp [digitsValue, ih]

/-- The digits written by `Nat.toDigitsCore` are decimal digit characters whose value is the
number written. -/
theorem toDigitsCore_spec (fuel : Nat) : ∀ (n : Nat) (acc : List Char), n < fuel →
    ∃ ds, Nat.toDigitsCore 10 fuel n acc = ds ++ acc ∧ ds ≠ [] ∧
      (∀ c ∈ ds, ∃ d, d < 10 ∧ c = Nat.digitChar d) ∧ digitsValue 10 ds 0 = n := by
  induction fuel with
  | zero => intro n acc h; omega
  | succ f ih =>
    intro n acc h
    unfold Nat.toDigitsCore
    by_cases h0 : n / 10 = 0
    · have hn : n < 10 := by omega
      refine ⟨[Nat.digitChar (n % 10)], by simp [h0], by simp, ?_, ?_⟩
      · intro c hc
        simp at hc
        exact ⟨n % 10, Nat.mod_lt _ (by decide), hc⟩
      · have := (digitChar_facts (n % 10) (Nat.mod_lt _ (by decide))).1
        rw [Nat.mod_eq_of_lt hn] at this
        simp [digitsValue, this, Nat.mod_eq_of_lt hn]
    · obtain ⟨ds, hds, _, hall, hval⟩ := ih (n / 10) (Nat.digitChar (n % 10) :: acc) (by omega)
      refine ⟨ds ++ [Nat.digitChar (n % 10)], by simp [h0, hds], by simp, ?_, ?_⟩
      · intro c hc
        rcases List.mem_append.mp hc with hc | hc
        · exact hall c hc
        · simp at hc
          exact ⟨n % 10, Nat.mod_lt _ (by decide), hc⟩
      · have := (digitChar_facts (n % 10) (Nat.mod_lt _ (by decide))).1
        rw [digitsValue_append, hval]
        simp [digitsValue, this]
        omega

/-- The function `parseInt` reads a non-empty run of decimal digits as its value. -/
theorem parseIntChars_digits (ds : List Char) (hne : ds ≠ [])
    (hall : ∀ c ∈ ds, ∃ d, d < 10 ∧ c = Nat.digitChar d) :
    parseIntChars ds = toDouble ((digitsValue 10 ds 0 : Nat) : Int) := by
  have hfacts : ∀ c ∈ ds, isStrWhiteSpace c = false ∧ isRadixDigit 10 c = true ∧
      c ≠ '-' ∧ c ≠ '+' ∧ c ≠ 'x' ∧ c ≠ 'X' := by
    intro c hc
    obtain ⟨d, hd, rfl⟩ := hall c hc
    have := digitChar_facts d hd
    exact ⟨this.2.1, this.2.2.1, this.2.2.2.1, this.2.2.2.2.1, this.2.2.2.2.2.1, this.2.2.2.2.2.2⟩
  cases ds with
  | nil => exact absurd rfl hne
  | cons c rest =>
    have hc := hfacts c (by simp)
    have hdrop : List.dropWhile isStrWhiteSpace (c :: rest) = c :: rest := by
      simp [List.dropWhile, hc.1]
    have hsign : splitSign (c :: rest) = (false, c :: rest) := by
      simp [splitSign, hc.2.2.1, hc.2.2.2.1]
    have hradix : splitRadix (c :: rest) = (10, c :: rest) := by
      cases rest with
      | nil => simp [splitRadix]
      | cons c1 r =>
        have hc1 := hfacts c1 (by simp)
        simp [splitRadix, hc1.2.2.2.2.1, hc1.2.2.2.2.2]
    have htake : List.takeWhile (isRadixDigit 10) (c :: rest) = c :: rest := by
      rw [List.takeWhile_eq_self_iff]
      intro x hx
      exact (hfacts x hx).2.1
    simp only [parseIntChars, hdrop, hsign, hradix, htake]
    simp

theorem parseIntChars_toDigits (n : Nat) :
    parseIntChars (Nat.toDigits 10 n) = toDouble (n : Int) := by
  obtain ⟨ds, hds, hne, hall, hval⟩ := toDigitsCore_spec (n + 1) n [] (by omega)
  have : Nat.toDigits 10 n = ds := by simpa [Nat.toDigits] using hds
  rw [this, parseIntChars_digits ds hne hall, hval]

theorem numberToString_natCast (n : Nat) (h : n ≤ 2 ^ 53) :
    numberToString (.fin (n : Int)) = toString n := by
  have hneg : ¬ ((n : Int) < 0) := by omega
  simp only [numberToString, hneg, if_false, Int.natAbs_ofNat, natToJsChars, h, if_true,
    decimalChars]
  rfl

/-- In the safe range `parseInt` reads back the decimal string of a natural number. -/
theorem parseInt_decimal (n : Nat) (h : n ≤ 2 ^ 53) :
    parseInt (.str (toString n)) = .fin (n : Int) := by
  have : (toString n).toList = Nat.toDigits 10 n := rfl
  simp only [parseInt, jsToString, this, parseIntChars_toDigits, toDouble_natCast n h]

theorem parseInt_natCast (n : Nat) (h : n ≤ 2 ^ 53) :
    parseInt (.num (.fin (n : Int))) = .fin (n : Int) := by
  have := parseInt_decimal n h
  simpa [parseInt, jsToString, numberToString_natCast n h] using this


/-! ## Consumer node: commits -/

theorem strictEq_self_of_truthy (v : JsVal) (h : truthy v = true) : strictEq v v = true := by
  cases v with
  | num n => cases n <;> simp_all [truthy, strictEq]
  | _ => simp [strictEq]

/-- C2, against the claim as stated: for the offset `a = 2^53` the single call carries
`9007199254740992`, which is not the decimal string of `a + 1`. -/
theorem onCommit_offset_beyond_safe_range :
    (commitCalls (runCommits (.str "t") none
        [commitMsg .undefined 3 (2 ^ 53), commitMsg .undefined 3 50]).2).map (fun c => c.offset)
      = ["9007199254740992"] ∧
    toString (2 ^ 53 + 1 : Nat) = "9007199254740993" := by
  decide

/-- C2, amended: for offsets `b < a < 2^53` and a resolvable topic, a commit of `a` followed by a
commit of `b` on the same partition makes exactly one `commitOffsets` call, with the decimal
string of `a + 1`; the second commit is skipped and the last commit recorded is that call. -/
theorem onCommit_smaller_offset_skipped (subTopic topic : JsVal) (p : Int) (a b : Nat)
    (htopic : truthy (jsOr topic subTopic) = true) (hba : b < a) (ha : a < 2 ^ 53) :
    runCommits subTopic none [commitMsg topic p a, commitMsg topic p b] =
      (some ⟨.num (.fin p), jsOr topic subTopic, toString (a + 1)⟩,
       [.commitOffsets ⟨.num (.fin p), jsOr topic subTopic, toString (a + 1)⟩, .done,
        .warn "Commit skipped", .done]) := by
  have hpa := parseInt_natCast a (Nat.le_of_lt ha)
  have hpb := parseInt_natCast b (by omega)
  have hsucc : numberToString (numSucc (.fin (a : Int))) = toString (a + 1) := by
    have : toDouble ((a : Int) + 1) = .fin ((a + 1 : Nat) : Int) := by
      simpa using toDouble_natCast (a + 1) ha
    simp only [numSucc, this]
    exact numberToString_natCast (a + 1) ha
  have hback : parseInt (.str (toString (a + 1))) = .fin ((a : Int) + 1) := by
    simpa using parseInt_decimal (a + 1) ha
  have hself := strictEq_self_of_truthy _ htopic
  have hgt : numGt (.fin ((a : Int) + 1)) (.fin (b : Int)) = true := by
    simp only [numGt, decide_eq_true_eq]; omega
  have hpart : strictEq (.num (.fin p)) (.num (.fin p)) = true := by simp [strictEq]
  simp [runCommits, onCommit, commitMsg, jsIsNaN, htopic, commitBehind, hpa, hpb, hsucc, hback,
    hself, hgt, hpart]

/-- Witness for C2: partition 3, offset 100 and then offset 50 leave the offset 101. -/
theorem onCommit_smaller_offset_skipped_witness :
    truthy (jsOr .undefined (.str "t")) = true ∧ 50 < 100 ∧ 100 < 2 ^ 53 ∧
    runCommits (.str "t") none [commitMsg .undefined 3 (100 : Nat), commitMsg .undefined 3 (50 : Nat)] =
      (some ⟨.num (.fin 3), .str "t", "101"⟩,
       [.commitOffsets ⟨.num (.fin 3), .str "t", "101"⟩, .done, .warn "Commit skipped", .done]) :=
  ⟨by decide, by decide, by decide,
    onCommit_smaller_offset_skipped (.str "t") .undefined 3 100 50 (by decide) (by decide)
      (by decide)⟩

/-- C3, at the failing input: a commit whose offset is `null` is not rejected; `commitOffsets` is
called with the offset `NaN` and the last commit is replaced. -/
theorem onCommit_null_offset_accepted :
    onCommit (.str "t") none
        { event := .str "commit", partition := .num (.fin 0), offset := .null,
          topic := .undefined } =
      (some ⟨.num (.fin 0), .str "t", "NaN"⟩,
       [.commitOffsets ⟨.num (.fin 0), .str "t", "NaN"⟩, .done]) := by
  decide

/-- The rejections `onCommit` does make: an `undefined` or NaN partition or offset, or a topic
that does not resolve, gives one error, no broker call and the same last commit. -/
theorem onCommit_rejects (subTopic : JsVal) (last : Option Commit) (p : ControlPayload)
    (h : jsIsNaN p.partition = true ∨ jsIsNaN p.offset = true ∨
      truthy (jsOr p.topic subTopic) = false) :
    (onCommit subTopic last p).1 = last ∧ commitCalls (onCommit subTopic last p).2 = [] ∧
      (errorCalls (onCommit subTopic last p).2).length = 1 := by
  unfold onCommit
  by_cases h1 : jsIsNaN p.partition = true
  · simp [h1, commitCalls, errorCalls]
  · by_cases h2 : truthy (jsOr p.topic subTopic) = true
    · have h3 : jsIsNaN p.offset = true := by
        rcases h with h | h | h
        · exact absurd h h1
        · exact h
        · rw [h2] at h; exact absurd h (by decide)
      simp [h1, h2, h3, commitCalls, errorCalls]
    · simp [h1, h2, commitCalls, errorCalls]

/-! ## Consumer node: seek -/

/-- C4, against the claim as stated: a seek whose partition is the empty string is not
rejected; the broker's `seek` is called and no error is reported. -/
theorem onSeek_empty_string_accepted :
    onSeek (.str "t")
        { event := .str "seek", partition := .str "", offset := .num (.fin 10),
          topic := .undefined } =
      [.seek (.str "t") (.str "") "10", .status "green" "ring" "Seeked", .done] ∧
    onSeek (.str "t")
        { event := .str "seek", partition := .bool true, offset := .bool false,
          topic := .undefined } =
      [.seek (.str "t") (.bool true) "false", .status "green" "ring" "Seeked", .done] := by
  decide

/-- C4, amended: `onSeek` calls the broker's `seek`, once and without an error, exactly when
partition and offset are neither `null` nor `undefined` and `isNaN` is false of both; otherwise
it reports one error and makes no `seek` call. -/
theorem onSeek_seeks_iff_not_NaN (topic : JsVal) (p : ControlPayload) :
    if (p.offset ≠ .null ∧ p.offset ≠ .undefined ∧ jsIsNaN p.offset = false) ∧
        (p.partition ≠ .null ∧ p.partition ≠ .undefined ∧ jsIsNaN p.partition = false)
    then seekCalls (onSeek topic p) = [.seek topic p.partition (jsToString p.offset)] ∧
      errorCalls (onSeek topic p) = []
    else seekCalls (onSeek topic p) = [] ∧ (errorCalls (onSeek topic p)).length = 1 := by
  unfold onSeek
  by_cases ho : p.offset = .null ∨ p.offset = .undefined ∨ jsIsNaN p.offset = true
  · have : ¬ (p.offset ≠ .null ∧ p.offset ≠ .undefined ∧ jsIsNaN p.offset = false) := by
      rintro ⟨h1, h2, h3⟩
      rcases ho with h | h | h
      · exact h1 h
      · exact h2 h
      · rw [h3] at h; exact absurd h (by decide)
    rw [if_pos ho, if_neg (fun h => this h.1)]
    simp [seekCalls, errorCalls]
  · have ho1 : p.offset ≠ .null ∧ p.offset ≠ .undefined ∧ jsIsNaN p.offset = false := by
      refine ⟨fun h => ho (Or.inl h), fun h => ho (Or.inr (Or.inl h)), ?_⟩
      cases hj : jsIsNaN p.offset
      · rfl
      · exact absurd (Or.inr (Or.inr hj)) ho
    by_cases hp : p.partition = .null ∨ p.partition = .undefined ∨ jsIsNaN p.partition = true
    · have : ¬ (p.partition ≠ .null ∧ p.partition ≠ .undefined ∧
          jsIsNaN p.partition = false) := by
        rintro ⟨h1, h2, h3⟩
        rcases hp with h | h | h
        · exact h1 h
        · exact h2 h
        · rw [h3] at h; exact absurd h (by decide)
      rw [if_neg ho, if_pos hp, if_neg (fun h => this h.2)]
      simp [seekCalls, errorCalls]
    · have hp1 : p.partition ≠ .null ∧ p.partition ≠ .undefined ∧
          jsIsNaN p.partition = false := by
        refine ⟨fun h => hp (Or.inl h), fun h => hp (Or.inr (Or.inl h)), ?_⟩
        cases hj : jsIsNaN p.partition
        · rfl
        · exact absurd (Or.inr (Or.inr hj)) hp
      rw [if_neg ho, if_neg hp, if_pos ⟨ho1, hp1⟩]
      have hm : methodToString p.offset = some (jsToString p.offset) := by
        cases hof : p.offset with
        | undefined => exact absurd hof ho1.2.1
        | null => exact absurd hof ho1.1
        | _ => rfl
      simp [hm, seekCalls, errorCalls]


/-! ## Consumer node: inbound records -/

theorem sentMessages_append {Msg : Type} (a b : List (DataEffect Msg)) :
    sentMessages (a ++ b) = sentMessages a ++ sentMessages b := by
  induction a with
  | nil => rfl
  | cons e es ih => cases e <;> simp [sentMessages, ih]

theorem raised_append {Msg : Type} (a b : List (DataEffect Msg)) :
    raised (a ++ b) = raised a ++ raised b := by
  induction a with
  | nil => rfl
  | cons e es ih => cases e <;> simp [raised, ih]

theorem sentMessages_errors {Msg : Type} (ts : List String) :
    sentMessages (ts.map (DataEffect.error : String → DataEffect Msg)) = [] := by
  induction ts with
  | nil => rfl
  | cons t ts ih => simpa [sentMessages] using ih

theorem raised_errors {Msg : Type} (ts : List String) :
    raised (ts.map (DataEffect.error : String → DataEffect Msg)) = [] := by
  induction ts with
  | nil => rfl
  | cons t ts ih => simpa [raised] using ih

theorem objSet_of_not_mem {β : Type} (acc : List (String × β)) (k : String) (v : β)
    (h : k ∉ acc.map Prod.fst) : objSet acc k v = acc ++ [(k, v)] := by
  induction acc with
  | nil => rfl
  | cons e es ih =>
    obtain ⟨k1, v1⟩ := e
    simp only [List.map_cons, List.mem_cons, not_or] at h
    have hne : ¬ k1 = k := fun hk => h.1 hk.symm
    simp [objSet, hne, ih h.2]

/-- With distinct header names the loop appends one entry per header, in order, holding the
string form of its value. -/
theorem fillHeaders_ok {Obj : Type} (lib : JsLib Obj) (hs : List (String × JsData Obj)) :
    ∀ (acc out : List (String × String)), (hs.map Prod.fst).Nodup →
      (∀ k ∈ hs.map Prod.fst, k ∉ acc.map Prod.fst) → fillHeaders lib hs acc = .ok out →
      ∃ strs, out = acc ++ strs ∧
        List.Forall₂ (fun kv ks => ks.1 = kv.1 ∧ dataToString lib kv.2 = .ok ks.2) hs strs := by
  induction hs with
  | nil =>
    intro acc out _ _ h
    simp only [fillHeaders, Except.ok.injEq] at h
    exact ⟨[], by simp [h], List.Forall₂.nil⟩
  | cons e rest ih =>
    obtain ⟨k, v⟩ := e
    intro acc out hnd hdisj h
    simp only [List.map_cons, List.nodup_cons] at hnd
    unfold fillHeaders at h
    cases hv : dataToString lib v with
    | error err => simp [hv] at h
    | ok s =>
      simp only [hv] at h
      have hk : k ∉ acc.map Prod.fst := hdisj k (by simp)
      rw [objSet_of_not_mem acc k s hk] at h
      have hdisj2 : ∀ x ∈ rest.map Prod.fst, x ∉ (acc ++ [(k, s)]).map Prod.fst := by
        intro x hx hmem
        simp only [List.map_append, List.map_cons, List.map_nil, List.mem_append,
          List.mem_singleton] at hmem
        rcases hmem with hmem | hmem
        · exact hdisj x (by simp [hx]) hmem
        · exact hnd.1 (hmem ▸ hx)
      obtain ⟨strs, hout, hall⟩ := ih (acc ++ [(k, s)]) out hnd.2 hdisj2 h
      exact ⟨(k, s) :: strs, by simp [hout], List.Forall₂.cons ⟨rfl, hv⟩ hall⟩

/-- C5, at the failing input: for a record with a header whose value is `null`, the handler
emits nothing on either output and a ReferenceError leaves it. -/
theorem eachMessage_null_header_raises {Obj : Type} (lib : JsLib Obj) (keytype valuetype : JsVal) :
    eachMessage lib keytype valuetype
        { topic := .str "t", partition := .num (.fin 0), offset := .str "5",
          key := .prim .null, value := .prim .null, headers := some [("h", .prim .null)] } =
      [.status "red" "ring" "Error", .raise "ReferenceError: send is not defined"] := by
  simp [eachMessage, buildMessage, initialHeaders, fillHeaders, dataToString, methodToString,
    Consumer.convertMessage]

/-- C8: the consumer's `convertMessage` returns a buffer whose text `JSON.parse` rejects
unchanged, reporting one error, and returns every value that is not a buffer unchanged, so that
converting such a value twice is converting it once. -/
theorem consumer_convertMessage_degrades {Obj : Type} (lib : JsLib Obj) (b : List UInt8)
    (v : JsData Obj) (toType : JsVal)
    (hbad : ∃ e, lib.jsonParse (lib.bufferToString b) = .error e) (hv : v.isBuffer = false) :
    Consumer.convertMessage lib (.buffer b) (.str "json") =
        (.buffer b, ["Kafka Consumer Error (message conversion)"]) ∧
      Consumer.convertMessage lib v toType = (v, []) ∧
      Consumer.convertMessage lib (Consumer.convertMessage lib v toType).1 toType =
        Consumer.convertMessage lib v toType := by
  obtain ⟨e, he⟩ := hbad
  have h1 : Consumer.convertMessage lib v toType = (v, []) := by
    cases v with
    | buffer b => simp [JsData.isBuffer] at hv
    | prim p => rfl
    | object o => rfl
  refine ⟨?_, h1, ?_⟩
  · simp [Consumer.convertMessage, strictEq, he]
  · rw [h1]
    exact h1

/-- Witness for C8: a one-byte buffer that is not JSON, and a string key. -/
theorem consumer_convertMessage_degrades_witness :
    (∃ e, sampleLib.jsonParse (sampleLib.bufferToString [123]) = .error e) ∧
    (JsData.prim (.str "k") : JsData Unit).isBuffer = false ∧
    Consumer.convertMessage sampleLib (.buffer [123]) (.str "json") =
        (.buffer [123], ["Kafka Consumer Error (message conversion)"]) ∧
      Consumer.convertMessage sampleLib (.prim (.str "k")) (.str "json") = (.prim (.str "k"), []) ∧
      Consumer.convertMessage sampleLib
          (Consumer.convertMessage sampleLib (.prim (.str "k")) (.str "json")).1 (.str "json") =
        Consumer.convertMessage sampleLib (.prim (.str "k")) (.str "json") :=
  ⟨⟨"SyntaxError", rfl⟩, rfl,
    consumer_convertMessage_degrades sampleLib [123] (.prim (.str "k")) (.str "json")
      ⟨"SyntaxError", rfl⟩ rfl⟩

/-- C9: a record handled without an exception gives exactly one `node.send`, on the primary
output only; the message carries the converted key and value, the record's topic, partition and
offset, `null` headers when the record has none or an empty mapping, and otherwise one header
per header of the record, under the same name, holding the string form of its value. -/
theorem eachMessage_emits_record {Obj : Type} (lib : JsLib Obj) (keytype valuetype : JsVal)
    (r : Record Obj) (hkeys : ∀ hs, r.headers = some hs → (hs.map Prod.fst).Nodup)
    (hok : raised (eachMessage lib keytype valuetype r) = []) :
    ∃ msg : ConsumerMsg Obj,
      sentMessages (eachMessage lib keytype valuetype r) = [(some msg, none)] ∧
      msg.key = (Consumer.convertMessage lib r.key keytype).1 ∧
      msg.value = (Consumer.convertMessage lib r.value valuetype).1 ∧
      msg.topic = r.topic ∧ msg.partition = r.partition ∧ msg.offset = r.offset ∧
      (r.headers = none ∨ r.headers = some [] → msg.headers = none) ∧
      (∀ hs, r.headers = some hs → hs ≠ [] → ∃ out, msg.headers = some out ∧
        List.Forall₂ (fun kv ks => ks.1 = kv.1 ∧ dataToString lib kv.2 = .ok ks.2) hs out) := by
  unfold eachMessage at hok ⊢
  unfold buildMessage at hok ⊢
  cases hh : r.headers with
  | none =>
    simp only [hh, initialHeaders]
    refine ⟨(ConsumerMsg.mk (Consumer.convertMessage lib r.key keytype).1
      (Consumer.convertMessage lib r.value valuetype).1 none r.topic r.partition r.offset), ?_, rfl, rfl, rfl, rfl, rfl, fun _ => rfl, ?_⟩
    · simp [sentMessages_append, sentMessages_errors, sentMessages]
    · intro hs h; exact absurd h (by simp)
  | some hs =>
    cases hs with
    | nil =>
      simp only [hh, initialHeaders, List.length_nil, if_true]
      refine ⟨(ConsumerMsg.mk (Consumer.convertMessage lib r.key keytype).1
      (Consumer.convertMessage lib r.value valuetype).1 none r.topic r.partition r.offset), ?_, rfl, rfl, rfl, rfl, rfl, fun _ => rfl, ?_⟩
      · simp [sentMessages_append, sentMessages_errors, sentMessages]
      · intro hs h hne
        simp only [Option.some.injEq] at h
        exact absurd h.symm hne
    | cons e rest =>
      simp only [hh, initialHeaders, List.length_cons, Nat.add_one_ne_zero, if_false,
        Option.getD_some] at hok ⊢
      cases hf : fillHeaders lib (e :: rest) [] with
      | error err =>
        simp [hf, raised_append, raised_errors, raised] at hok
      | ok out =>
        simp only [hf]
        obtain ⟨strs, hout, hall⟩ := fillHeaders_ok lib (e :: rest) [] out
          (hkeys (e :: rest) hh) (by simp) hf
        refine ⟨(ConsumerMsg.mk (Consumer.convertMessage lib r.key keytype).1
      (Consumer.convertMessage lib r.value valuetype).1 (some out) r.topic r.partition r.offset), ?_, rfl, rfl, rfl, rfl, rfl, ?_, ?_⟩
        · simp [sentMessages_append, sentMessages_errors, sentMessages]
        · intro h
          rcases h with h | h <;> simp at h
        · intro hs h _
          simp only [Option.some.injEq] at h
          subst h
          exact ⟨out, rfl, by simpa [hout] using hall⟩

/-- Witness for C9: the sample record gives one message with both headers as strings. -/
theorem eachMessage_emits_record_witness :
    (∀ hs, sampleRecord.headers = some hs → (hs.map Prod.fst).Nodup) ∧
    raised (eachMessage sampleLib (.str "string") (.str "json") sampleRecord) = [] ∧
    sentMessages (eachMessage sampleLib (.str "string") (.str "json") sampleRecord) =
      [(some { key := .prim (.str "k"), value := .prim .null,
               headers := some [("h", "A"), ("g", "x")], topic := .str "t",
               partition := .num (.fin 0), offset := .str "5" }, none)] ∧
    ∃ msg : ConsumerMsg Unit,
      sentMessages (eachMessage sampleLib (.str "string") (.str "json") sampleRecord) =
        [(some msg, none)] :=
  have hk : ∀ hs, sampleRecord.headers = some hs → (hs.map Prod.fst).Nodup := by
    intro hs h
    simp only [sampleRecord, Option.some.injEq] at h
    subst h
    decide
  ⟨hk, by decide, by decide,
    (eachMessage_emits_record sampleLib (.str "string") (.str "json") sampleRecord hk
      (by decide)).imp (fun _ h => h.1)⟩


/-! ## Producer node -/

/-- C10, at the failing input: only the first space is removed, so the third address keeps its
leading space, where removing every space gives three clean addresses. -/
theorem brokers_keeps_later_spaces :
    brokers "a:1, b:2, c:3" = ["a:1", "b:2", " c:3"] ∧
    brokersSpec "a:1, b:2, c:3" = ["a:1", "b:2", "c:3"] := by
  decide

end BishopKafka
